import Mathlib

/-!
Verification development for the greek_scansion repository
(src/greek_scansion.py and src/scan_trimeter.py).

The Python sources are shallowly embedded below.  Syllables are modelled as
lists of characters (Python strings), metrical symbols as the three-element
type `Sym`, and the two Python exceptions that can occur in the trimeter
scanner (IndexError from `matches[0]` on an empty list, TypeError from the
string item assignment `filled[-1] = 'X'`) as the error type `PyErr`, with
fallible functions returning `Except PyErr`.

The external syllabifier (greek_accentuation.syllabify) is out of scope per
the specification, so `scan_line` is embedded as a function of the syllable
list it produces.  The Unicode platform primitives used by the source
(unicodedata NFD decomposition, str.lower, the regex classes \W and \s) are
embedded as finite tables and predicates restricted to the character ranges
this development exercises, as noted on each definition.
-/

namespace GS

/-- Metrical symbol: LONG ('L'), SHORT ('S'), UNKNOWN ('X'), from
greek_scansion.py lines 74-76. -/
inductive Sym
  | L
  | S
  | X
deriving DecidableEq, Repr

/-- Python exceptions reachable in scan_trimeter.py: IndexError from
`matches[0]` on an empty list (line 80) and TypeError from the string item
assignment `filled[-1] = 'X'` (line 82). -/
inductive PyErr
  | indexError
  | typeError
deriving DecidableEq, Repr

deriving instance DecidableEq for Except

/-- VOWELS from greek_scansion.py line 28. -/
def VOWELS : List Char := ['α', 'ε', 'η', 'ι', 'ο', 'υ', 'ω']

/-- LONG_VOWELS from greek_scansion.py line 31. -/
def LONG_VOWELS : List Char := ['η', 'ω']

/-- SHORT_VOWELS from greek_scansion.py line 34. -/
def SHORT_VOWELS : List Char := ['ε', 'ο']

/-- DIPHTHONGS from greek_scansion.py line 37; the regex searches for any of
them as a substring of the diacritic-stripped syllable. -/
def DIPHTHONGS : List (List Char) :=
  [['α', 'ι'], ['ε', 'ι'], ['ο', 'ι'], ['υ', 'ι'],
   ['α', 'υ'], ['ε', 'υ'], ['ο', 'υ'], ['η', 'υ']]

/-- CONSONANTS from greek_scansion.py lines 40-42 (19 characters, including
lunate, medial and final sigma). -/
def CONSONANTS : List Char :=
  ['β', 'γ', 'δ', 'ζ', 'θ', 'κ', 'λ', 'μ', 'ν', 'ξ',
   'π', 'ρ', 'ϲ', 'σ', 'ς', 'τ', 'φ', 'χ', 'ψ']

/-- DOUBLE_CONS from greek_scansion.py line 45. -/
def DOUBLE_CONS : List Char := ['ζ', 'ξ', 'ψ']

/-- LONG_MARKS from greek_scansion.py lines 48-54: combining circumflex
U+0302, macron U+0304, modifier circumflex U+02C6, caret U+005E, combining
iota subscript U+0345, Greek ypogegrammeni U+037A. -/
def LONG_MARKS : List Char :=
  [Char.ofNat 0x302, Char.ofNat 0x304, Char.ofNat 0x2C6,
   Char.ofNat 0x5E, Char.ofNat 0x345, Char.ofNat 0x37A]

/-- SHORT_MARK from greek_scansion.py line 57: combining breve U+0306. -/
def SHORT_MARK : Char := Char.ofNat 0x306

/-- MUTE_LIQUID from greek_scansion.py lines 59-66 (27 two-character
clusters: voiceless stop + liquid or nasal, and voiced stop + rho). -/
def MUTE_LIQUID : List (List Char) :=
  [['θ', 'λ'], ['θ', 'ρ'], ['θ', 'μ'], ['θ', 'ν'],
   ['κ', 'λ'], ['κ', 'ρ'], ['κ', 'μ'], ['κ', 'ν'],
   ['π', 'λ'], ['π', 'ρ'], ['π', 'ν'], ['π', 'μ'],
   ['τ', 'λ'], ['τ', 'ρ'], ['τ', 'ν'], ['τ', 'μ'],
   ['φ', 'λ'], ['φ', 'ρ'], ['φ', 'ν'], ['φ', 'μ'],
   ['χ', 'λ'], ['χ', 'ρ'], ['χ', 'ν'], ['χ', 'μ'],
   ['β', 'ρ'], ['γ', 'ρ'], ['δ', 'ρ']]

/-- APOSTROPHE from greek_scansion.py line 71: modifier letter apostrophe
U+02BC (a Unicode word character, hence removed by a dedicated substitution
in alnum_syl rather than by the non-word-character substitution). -/
def APOSTROPHE : Char := Char.ofNat 0x2BC

/-- Platform primitive str.lower, restricted to ASCII capitals and the basic
Greek capital range U+0391..U+03A9 (U+03A2 is unassigned); every other
character is returned unchanged. -/
def lowerChar (c : Char) : Char :=
  let n := c.toNat
  if 65 ≤ n ∧ n ≤ 90 then Char.ofNat (n + 32)
  else if 913 ≤ n ∧ n ≤ 937 ∧ n ≠ 930 then Char.ofNat (n + 32)
  else c

/-- Platform primitive: the table of canonical (NFD) decompositions,
restricted to the precomposed polytonic Greek characters this development
uses; characters absent from the table decompose to themselves. -/
def nfdTable : List (Char × List Char) :=
  [(Char.ofNat 0x3AC, ['α', Char.ofNat 0x301]),   -- alpha with tonos
   (Char.ofNat 0x3AD, ['ε', Char.ofNat 0x301]),   -- epsilon with tonos
   (Char.ofNat 0x3AE, ['η', Char.ofNat 0x301]),   -- eta with tonos
   (Char.ofNat 0x3AF, ['ι', Char.ofNat 0x301]),   -- iota with tonos
   (Char.ofNat 0x3CC, ['ο', Char.ofNat 0x301]),   -- omicron with tonos
   (Char.ofNat 0x3CD, ['υ', Char.ofNat 0x301]),   -- upsilon with tonos
   (Char.ofNat 0x3CE, ['ω', Char.ofNat 0x301]),   -- omega with tonos
   (Char.ofNat 0x1FB0, ['α', Char.ofNat 0x306]),  -- alpha with vrachy
   (Char.ofNat 0x1FB1, ['α', Char.ofNat 0x304]),  -- alpha with macron
   (Char.ofNat 0x1FB3, ['α', Char.ofNat 0x345]),  -- alpha with ypogegrammeni
   (Char.ofNat 0x1FB6, ['α', Char.ofNat 0x342]),  -- alpha with perispomeni
   (Char.ofNat 0x1FC3, ['η', Char.ofNat 0x345]),  -- eta with ypogegrammeni
   (Char.ofNat 0x1FC6, ['η', Char.ofNat 0x342]),  -- eta with perispomeni
   (Char.ofNat 0x1FF3, ['ω', Char.ofNat 0x345]),  -- omega with ypogegrammeni
   (Char.ofNat 0x1FF6, ['ω', Char.ofNat 0x342])]  -- omega with perispomeni

/-- Platform primitive unicodedata.normalize applied to one character:
its canonical decomposition per `nfdTable`. -/
def nfd (c : Char) : List Char :=
  (nfdTable.lookup c).getD [c]

/-- strip_str from greek_scansion.py lines 80-92: for each character keep
the first codepoint of its NFD decomposition, then lowercase. -/
def strip_str (s : List Char) : List Char :=
  (s.map (fun c => (nfd c).headD c)).map lowerChar

/-- NFD decomposition of a whole string, used by natural_length
(greek_scansion.py line 111); embedded as the concatenation of the
per-character decompositions. -/
def nfd_str (s : List Char) : List Char :=
  (s.map nfd).flatten

/-- Platform primitive: the regex class \w (Unicode word character),
restricted to ASCII alphanumerics, underscore, the Greek and Coptic block
(minus its two punctuation characters U+037E and U+0387) and the Greek
Extended block, plus the modifier letter apostrophe U+02BC. -/
def isWordChar (c : Char) : Bool :=
  decide (c.isAlphanum = true ∨ c = '_' ∨
    (0x370 ≤ c.toNat ∧ c.toNat ≤ 0x3FF ∧ c.toNat ≠ 0x37E ∧ c.toNat ≠ 0x387) ∨
    (0x1F00 ≤ c.toNat ∧ c.toNat ≤ 0x1FFE) ∨
    c = APOSTROPHE)

/-- alnum_syl from greek_scansion.py lines 94-102: remove non-word
characters, remove the apostrophe, lowercase. -/
def alnum_syl (s : List Char) : List Char :=
  ((s.filter isWordChar).filter (fun c => c ≠ APOSTROPHE)).map lowerChar

/-- Anchored-nowhere substring search, the behaviour of re.search on a
literal pattern: does pat occur contiguously inside the second list. -/
def hasInfix (pat : List Char) : List Char → Bool
  | [] => pat.isPrefixOf []
  | c :: t => pat.isPrefixOf (c :: t) || hasInfix pat t

/-- natural_length from greek_scansion.py lines 104-124: priority-ordered
rules on the stripped and the decomposed view of the syllable. -/
def natural_length (syl : List Char) : Sym :=
  let bare := strip_str syl
  let split := nfd_str syl
  if bare.any (fun c => LONG_VOWELS.contains c) then Sym.L
  else if DIPHTHONGS.any (fun d => hasInfix d bare) then Sym.L
  else if split.any (fun c => LONG_MARKS.contains c) then Sym.L
  else if bare.any (fun c => SHORT_VOWELS.contains c) then Sym.S
  else if split.contains SHORT_MARK then Sym.S
  else Sym.X

/-- Membership in CONSONANTS, as used by the cluster-building loops of
positional_length (greek_scansion.py lines 142-152). -/
def isConsonant (c : Char) : Bool :=
  CONSONANTS.contains c

/-- The sentinel string END that scan_line passes as the following syllable
of the line-final syllable (greek_scansion.py line 188). -/
def END_SYL : List Char := ['E', 'N', 'D']

/-- positional_length from greek_scansion.py lines 126-174.  The word-break
test reads the raw boundary characters; both syllables are then normalized
by alnum_syl (which lowercases), the separating consonant cluster is the
trailing-consonant run of the first plus the leading-consonant run of the
second, and the cluster is classified.  The final comparison against the
capitalized literal END is kept exactly as in the source (line 172), where
it compares the already lowercased next syllable.  Python raises IndexError
on an empty syllable at lines 133 and 165; the embedding totalizes those two
single-character reads with a false default, and every theorem below only
exercises non-empty syllables. -/
def positional_length (syl next_syl : List Char) : Sym :=
  let wordbreak :=
    ((syl.getLast?).map Char.isWhitespace).getD false ||
    ((next_syl.head?).map Char.isWhitespace).getD false
  let s2 := alnum_syl syl
  let n2 := alnum_syl next_syl
  let cluster := (s2.reverse.takeWhile isConsonant).reverse ++ n2.takeWhile isConsonant
  let status :=
    if cluster.length ≤ 1 then
      if cluster.any (fun c => DOUBLE_CONS.contains c) then Sym.L else Sym.S
    else if MUTE_LIQUID.contains cluster then
      if wordbreak = true ∧ ((s2.getLast?).map (fun c => VOWELS.contains c)).getD false = true
      then Sym.S else Sym.X
    else Sym.L
  if n2 = END_SYL ∧ status = Sym.S then Sym.X else status

/-- The following syllable used by scan_line for index i: the sentinel END
for the last syllable, otherwise the syllable at index i+1
(greek_scansion.py lines 187-190). -/
def next_of (syls : List (List Char)) (i : Nat) : List Char :=
  if i = syls.length - 1 then END_SYL else syls.getD (i + 1) []

/-- The per-syllable body of the scan_line loop (greek_scansion.py lines
184-195): natural length first; if it is not LONG, positional length is
computed and LONG overrides, else a natural SHORT is replaced by the
positional result, else the natural value stands. -/
def scan_syl (syls : List (List Char)) (i : Nat) : Sym :=
  let syl := syls.getD i []
  let current := natural_length syl
  if current = Sym.L then current
  else
    let pos := positional_length syl (next_of syls i)
    if pos = Sym.L then Sym.L
    else if current = Sym.S then pos
    else current

/-- scan_line from greek_scansion.py lines 176-196, taken from the syllable
list produced by the external syllabifier (which, with the initial
line.strip(), is outside the scope of this embedding per the spec). -/
def scan_line (syls : List (List Char)) : List Sym :=
  (List.range syls.length).map (scan_syl syls)

/-- The per-syllable combination rule as the source implements it
(greek_scansion.py lines 185-194), written as a standalone function of the
two inferred lengths: natural LONG wins, then positional LONG, then a
natural SHORT is replaced by the positional result, otherwise the natural
value stands. -/
def combineCode (nat pos : Sym) : Sym :=
  if nat = Sym.L then Sym.L
  else if pos = Sym.L then Sym.L
  else if nat = Sym.S then pos
  else nat

/-- The per-syllable combination rule as the specification words it
(spec section 4.3, claim C1): natural LONG wins, then positional LONG, then
a natural SHORT is kept, otherwise (natural UNKNOWN) the positional result
stands.  Stated only to be compared with `combineCode`. -/
def combineSpec (nat pos : Sym) : Sym :=
  if nat = Sym.L then Sym.L
  else if pos = Sym.L then Sym.L
  else if nat = Sym.S then Sym.S
  else pos

/-- Anchored matching of a string against a concatenation of alternative
groups, the behaviour of the verbose regexes of scan_trimeter.py lines 23-34:
each group must consume one of its alternatives as a prefix, and the whole
string must be consumed.  For the boolean result the order of alternatives
is irrelevant. -/
def matchSeq : List (List (List Sym)) → List Sym → Bool
  | [], s => s.isEmpty
  | g :: gs, s => g.any (fun alt => alt.isPrefixOf s && matchSeq gs (s.drop alt.length))

/-- The four alternative groups of IAMBIC_NONFINAL (scan_trimeter.py lines
23-28): anceps with anapest, long or resolved, short, long or resolved. -/
def IAMBIC_NONFINAL : List (List (List Sym)) :=
  [[[Sym.S, Sym.S], [Sym.L], [Sym.S], [Sym.X], [Sym.S, Sym.X], [Sym.X, Sym.S]],
   [[Sym.S, Sym.S], [Sym.L], [Sym.X], [Sym.S, Sym.X], [Sym.X, Sym.S]],
   [[Sym.S], [Sym.X]],
   [[Sym.S, Sym.S], [Sym.L], [Sym.X], [Sym.X, Sym.S], [Sym.S, Sym.X]]]

/-- The four alternative groups of IAMBIC_FINAL (scan_trimeter.py lines
29-34): as IAMBIC_NONFINAL but the last position is a single final anceps. -/
def IAMBIC_FINAL : List (List (List Sym)) :=
  [[[Sym.S, Sym.S], [Sym.L], [Sym.S], [Sym.X], [Sym.S, Sym.X], [Sym.X, Sym.S]],
   [[Sym.S, Sym.S], [Sym.L], [Sym.X], [Sym.S, Sym.X], [Sym.X, Sym.S]],
   [[Sym.S], [Sym.X]],
   [[Sym.L], [Sym.S], [Sym.X]]]

/-- is_iambic_metron from scan_trimeter.py lines 36-51: anchored match of
the candidate against the final or non-final iambic grammar. -/
def is_iambic_metron (s : List Sym) (final : Bool) : Bool :=
  if final then matchSeq IAMBIC_FINAL s else matchSeq IAMBIC_NONFINAL s

/-- possible_metra from scan_trimeter.py lines 74-78: the ranked candidate
realizations for a 5-symbol metron. -/
def possible_metra : List (List Sym) :=
  [[Sym.S, Sym.S, Sym.S, Sym.S, Sym.L],
   [Sym.S, Sym.L, Sym.S, Sym.S, Sym.S],
   [Sym.L, Sym.S, Sym.S, Sym.S, Sym.L],
   [Sym.S, Sym.S, Sym.L, Sym.S, Sym.L]]

/-- The anchored wildcard match of scan_trimeter.py lines 72-73 and 79: the
observed metron, with each X read as the regex wildcard, tested against a
candidate (same length, and every non-X position equal). -/
def patMatch (pat cand : List Sym) : Bool :=
  pat.length == cand.length &&
    (List.zip pat cand).all (fun pc => pc.1 == Sym.X || pc.1 == pc.2)

/-- The str.endswith test of scan_trimeter.py line 81: the list ends with
three SHORT symbols. -/
def endsWith3S (l : List Sym) : Bool :=
  List.isSuffixOf [Sym.S, Sym.S, Sym.S] l

/-- fill_metron from scan_trimeter.py lines 53-83.  Lengths 4 and 6 are
rebuilt deterministically; length 5 takes the first ranked candidate that
matches the observed pattern, raising IndexError when no candidate matches
(matches[0] on an empty list) and TypeError when the final-anceps
restoration assigns to a string index (final metron, observed last symbol X,
filled result not ending in SSS); any other length returns the empty string. -/
def fill_metron (metron : List Sym) (final : Bool) : Except PyErr (List Sym) :=
  if metron.length = 4 then .ok (metron.take 1 ++ [Sym.L, Sym.S, Sym.L])
  else if metron.length = 6 then
    .ok (metron.take 1 ++ [Sym.S, Sym.S, Sym.S, Sym.S, Sym.S])
  else if metron.length = 5 then
    match possible_metra.filter (patMatch metron) with
    | [] => .error PyErr.indexError
    | filled :: _ =>
      if final = true ∧ metron.getLast? = some Sym.X ∧ endsWith3S filled = false then
        .error PyErr.typeError
      else .ok filled
  else .ok []

/-- The loop of scan_trimeter (scan_trimeter.py lines 102-116), processing
the raw meter in reverse: each symbol is prepended to the current buffer;
once the buffer has at least 4 symbols and matches the (final on the first
metron, then non-final) grammar, and the countdown guard holds, the buffer
is filled and prepended to the metron list.  Errors from fill_metron
propagate.  The arguments are the reversed remaining meter, the metron list,
the current buffer, the is_last flag and the countdown. -/
def stLoopRev : List Sym → List (List Sym) → List Sym → Bool → Nat →
    Except PyErr (List (List Sym))
  | [], tri, _, _, _ => .ok tri
  | m :: rest, tri, cur, last, cd =>
    let cur2 := m :: cur
    if cur2.length < 4 then stLoopRev rest tri cur2 last cd
    else if is_iambic_metron cur2 last = true ∧ (cd = 1 ∨ 4 < cd) then
      match fill_metron cur2 last with
      | .error e => .error e
      | .ok filled => stLoopRev rest (filled :: tri) [] false (cd - 1)
    else stLoopRev rest tri cur2 last cd

/-- The loop of scan_trimeter_2 (scan_trimeter.py lines 139-155), processing
the raw meter forwards: each symbol is appended to the current buffer; once
the buffer has at least 4 symbols, is_last is set when the countdown equals
1 (and then persists), and an accepted metron is filled and appended. -/
def st2Loop : List Sym → List (List Sym) → List Sym → Bool → Nat →
    Except PyErr (List (List Sym))
  | [], tri, _, _, _ => .ok tri
  | m :: rest, tri, cur, last, cd =>
    let cur2 := cur ++ [m]
    if cur2.length < 4 then st2Loop rest tri cur2 last cd
    else
      let last2 := if cd = 1 then true else last
      if is_iambic_metron cur2 last2 = true ∧ (cd = 1 ∨ 4 < cd) then
        match fill_metron cur2 last2 with
        | .error e => .error e
        | .ok filled => st2Loop rest (tri ++ [filled]) [] last2 (cd - 1)
      else st2Loop rest tri cur2 last2 cd

/-- The forward loop with the is_last machinery removed: every metron is
matched and filled against the non-final grammar.  Claim C10 states that
scan_trimeter_2 behaves exactly like this variant. -/
def st2LoopNF : List Sym → List (List Sym) → List Sym → Nat →
    Except PyErr (List (List Sym))
  | [], tri, _, _ => .ok tri
  | m :: rest, tri, cur, cd =>
    let cur2 := cur ++ [m]
    if cur2.length < 4 then st2LoopNF rest tri cur2 cd
    else if is_iambic_metron cur2 false = true ∧ (cd = 1 ∨ 4 < cd) then
      match fill_metron cur2 false with
      | .error e => .error e
      | .ok filled => st2LoopNF rest (tri ++ [filled]) [] (cd - 1)
    else st2LoopNF rest tri cur2 cd

/-- scan_trimeter_2 from scan_trimeter.py lines 129-155, as a function of
the raw meter (its own call to scan_line is the same external-syllabifier
boundary as in scan_trimeter): the forward pass starting with is_last false
and countdown equal to the meter length, returning the metron list. -/
def scan_trimeter_2 (meter : List Sym) : Except PyErr (List (List Sym)) :=
  st2Loop meter [] [] false meter.length

/-- The no-final variant of scan_trimeter_2, compared with it in claim
C10. -/
def scan_trimeter_2_nf (meter : List Sym) : Except PyErr (List (List Sym)) :=
  st2LoopNF meter [] [] meter.length

/-- scan_trimeter from scan_trimeter.py lines 85-127, as a function of the
raw meter produced by scan_line: the reverse pass starting with is_last true
and countdown equal to the meter length; if it yields exactly 3 metra their
concatenation is returned, otherwise the forward pass is tried, and if that
also fails the function prints a diagnostic and returns None (modelled as
`.ok none`).  A Python exception raised in fill_metron aborts the whole
call (modelled as `.error`). -/
def scan_trimeter (meter : List Sym) : Except PyErr (Option (List Sym)) :=
  match stLoopRev meter.reverse [] [] true meter.length with
  | .error e => .error e
  | .ok tri =>
    if tri.length = 3 then .ok (some tri.flatten)
    else
      match st2Loop meter [] [] false meter.length with
      | .error e => .error e
      | .ok tri2 =>
        if tri2.length = 3 then .ok (some tri2.flatten) else .ok none

/-- Minimum alternative length of one group, used to bound matched
lengths. -/
def altMin (g : List (List Sym)) : Nat :=
  (g.map List.length).foldr Nat.min 99

/-- Maximum alternative length of one group. -/
def altMax (g : List (List Sym)) : Nat :=
  (g.map List.length).foldr Nat.max 0

/-- Sum over the groups of the minimum alternative lengths. -/
def sumMin (gs : List (List (List Sym))) : Nat :=
  (gs.map altMin).sum

/-- Sum over the groups of the maximum alternative lengths. -/
def sumMax (gs : List (List (List Sym))) : Nat :=
  (gs.map altMax).sum

/-- The minimum alternative length bounds every alternative of a group from
below. -/
theorem altMin_le_of_mem {g : List (List Sym)} {a : List Sym} (h : a ∈ g) :
    altMin g ≤ a.length := by
  induction g with
  | nil => cases h
  | cons b t ih =>
    rcases List.mem_cons.mp h with rfl | h
    · simp only [altMin, List.map_cons, List.foldr_cons]
      exact Nat.min_le_left _ _
    · have := ih h
      simp only [altMin, List.map_cons, List.foldr_cons] at *
      exact le_trans (Nat.min_le_right _ _) this

/-- The maximum alternative length bounds every alternative of a group from
above. -/
theorem le_altMax_of_mem {g : List (List Sym)} {a : List Sym} (h : a ∈ g) :
    a.length ≤ altMax g := by
  induction g with
  | nil => cases h
  | cons b t ih =>
    rcases List.mem_cons.mp h with rfl | h
    · simp only [altMax, List.map_cons, List.foldr_cons]
      exact Nat.le_max_left _ _
    · have := ih h
      simp only [altMax, List.map_cons, List.foldr_cons] at *
      exact le_trans this (Nat.le_max_right _ _)

/-- A string matched by a sequence of alternative groups has its length
between the sum of the minimum and the sum of the maximum alternative
lengths of the groups. -/
theorem matchSeq_len : ∀ (gs : List (List (List Sym))) (s : List Sym),
    matchSeq gs s = true → sumMin gs ≤ s.length ∧ s.length ≤ sumMax gs := by
  intro gs
  induction gs with
  | nil =>
    intro s h
    simp only [matchSeq, List.isEmpty_iff] at h
    subst h
    simp [sumMin, sumMax]
  | cons g gs ih =>
    intro s h
    simp only [matchSeq, List.any_eq_true, Bool.and_eq_true] at h
    obtain ⟨alt, hmem, hpre, hrec⟩ := h
    have hpre2 : alt <+: s := List.isPrefixOf_iff_prefix.mp hpre
    have hlen : alt.length ≤ s.length := hpre2.length_le
    have hdrop := List.length_drop alt.length s
    have hrec2 := ih (s.drop alt.length) hrec
    have h1 := altMin_le_of_mem hmem
    have h2 := le_altMax_of_mem hmem
    have hsmin : sumMin (g :: gs) = altMin g + sumMin gs := by
      simp [sumMin]
    have hsmax : sumMax (g :: gs) = altMax g + sumMax gs := by
      simp [sumMax]
    omega

/-- Length bounds for the iambic metron matcher: every accepted candidate
has between 4 symbols and 7 (non-final grammar) or 6 (final grammar). -/
theorem is_iambic_len (s : List Sym) (f : Bool)
    (h : is_iambic_metron s f = true) :
    4 ≤ s.length ∧ s.length ≤ 7 ∧ (f = true → s.length ≤ 6) := by
  cases f with
  | false =>
    have hb := matchSeq_len IAMBIC_NONFINAL s (by simpa [is_iambic_metron] using h)
    have h1 : sumMin IAMBIC_NONFINAL = 4 := by decide
    have h2 : sumMax IAMBIC_NONFINAL = 7 := by decide
    refine ⟨by omega, by omega, ?_⟩
    intro hc
    cases hc
  | true =>
    have hb := matchSeq_len IAMBIC_FINAL s (by simpa [is_iambic_metron] using h)
    have h1 : sumMin IAMBIC_FINAL = 4 := by decide
    have h2 : sumMax IAMBIC_FINAL = 6 := by decide
    exact ⟨by omega, by omega, fun _ => by omega⟩

/-- Characterization of one matching step: a cons of groups matches exactly
when some alternative of the head group is a prefix and the rest matches the
remaining groups. -/
theorem matchSeq_cons {g : List (List Sym)} {gs : List (List (List Sym))}
    {s : List Sym} :
    matchSeq (g :: gs) s = true ↔
      ∃ alt ∈ g, alt <+: s ∧ matchSeq gs (s.drop alt.length) = true := by
  simp [matchSeq, List.any_eq_true, List.isPrefixOf_iff_prefix]

/-- A 7-symbol candidate accepted by the non-final grammar remains accepted
after dropping its first or its last symbol.  A 7-symbol match must realize
every group at its maximum alternative length (2, 2, 1, 2), and each of the
finitely many such decompositions stays legal after either truncation.  This
is the reason neither scan pass can ever hand a 7-symbol metron to
fill_metron: the 6-symbol buffer one step earlier was already accepted. -/
theorem iambic7_drops (s : List Sym) (h7 : s.length = 7)
    (h : is_iambic_metron s false = true) :
    is_iambic_metron (s.drop 1) false = true ∧
      is_iambic_metron s.dropLast false = true := by
  simp only [is_iambic_metron] at h ⊢
  rw [show IAMBIC_NONFINAL =
    [[[Sym.S, Sym.S], [Sym.L], [Sym.S], [Sym.X], [Sym.S, Sym.X], [Sym.X, Sym.S]],
     [[Sym.S, Sym.S], [Sym.L], [Sym.X], [Sym.S, Sym.X], [Sym.X, Sym.S]],
     [[Sym.S], [Sym.X]],
     [[Sym.S, Sym.S], [Sym.L], [Sym.X], [Sym.X, Sym.S], [Sym.S, Sym.X]]] from rfl] at h
  obtain ⟨a1, hm1, ⟨t1, rfl⟩, h⟩ := matchSeq_cons.mp h
  rw [List.drop_left] at h
  obtain ⟨a2, hm2, ⟨t2, rfl⟩, h⟩ := matchSeq_cons.mp h
  rw [List.drop_left] at h
  obtain ⟨a3, hm3, ⟨t3, rfl⟩, h⟩ := matchSeq_cons.mp h
  rw [List.drop_left] at h
  obtain ⟨a4, hm4, ⟨t4, rfl⟩, h⟩ := matchSeq_cons.mp h
  rw [List.drop_left] at h
  simp only [matchSeq, List.isEmpty_iff] at h
  subst h
  fin_cases hm1 <;> fin_cases hm2 <;> fin_cases hm3 <;> fin_cases hm4 <;>
    simp_all <;> decide

/-- When fill_metron succeeds on a metron of length 4, 5 or 6, the filled
result has the same length as the metron. -/
theorem fill_metron_ok_length (m : List Sym) (f : Bool) (out : List Sym)
    (h : fill_metron m f = .ok out)
    (hl : m.length = 4 ∨ m.length = 5 ∨ m.length = 6) :
    out.length = m.length := by
  rcases hl with h4 | h5 | h6
  · rw [fill_metron, if_pos h4] at h
    cases h
    simp [List.length_take, h4]
  · rw [fill_metron, if_neg (by omega), if_neg (by omega), if_pos h5] at h
    rcases hm : possible_metra.filter (patMatch m) with _ | ⟨filled, t⟩
    · rw [hm] at h
      cases h
    · rw [hm] at h
      dsimp only at h
      have hmem : filled ∈ possible_metra.filter (patMatch m) := by
        rw [hm]
        exact List.mem_cons_self _ _
      have hpm : patMatch m filled = true := (List.mem_filter.mp hmem).2
      have hlen : m.length = filled.length := by
        simp only [patMatch, Bool.and_eq_true, beq_iff_eq] at hpm
        exact hpm.1
      by_cases hc : f = true ∧ m.getLast? = some Sym.X ∧ endsWith3S filled = false
      · rw [if_pos hc] at h
        cases h
      · rw [if_neg hc] at h
        cases h
        omega
  · rw [fill_metron, if_neg (by omega), if_pos h6] at h
    cases h
    simp [List.length_take, h6]

/-- Invariant proof for the reverse pass of scan_trimeter: starting from a
metron list whose entries all have 4 to 6 symbols and a buffer that is not
itself acceptable under the current flag and countdown, every metron in a
successfully returned list has 4 to 6 symbols.  The buffer hypothesis rules
out a 7-symbol acceptance: had the buffer grown to 7, its 6-symbol suffix
would already have been accepted one step earlier (iambic7_drops). -/
theorem stLoopRev_lengths :
    ∀ (rest : List Sym) (tri : List (List Sym)) (cur : List Sym) (last : Bool)
      (cd : Nat) (out : List (List Sym)),
      (∀ x ∈ tri, 4 ≤ x.length ∧ x.length ≤ 6) →
      ¬ (4 ≤ cur.length ∧ is_iambic_metron cur last = true ∧ (cd = 1 ∨ 4 < cd)) →
      stLoopRev rest tri cur last cd = .ok out →
      ∀ x ∈ out, 4 ≤ x.length ∧ x.length ≤ 6 := by
  intro rest
  induction rest with
  | nil =>
    intro tri cur last cd out htri _ heq
    simp only [stLoopRev] at heq
    cases heq
    exact htri
  | cons m rest ih =>
    intro tri cur last cd out htri hcur heq
    simp only [stLoopRev] at heq
    have hlc : (m :: cur).length = cur.length + 1 := rfl
    by_cases h4 : (m :: cur).length < 4
    · rw [if_pos h4] at heq
      refine ih _ _ _ _ _ htri ?_ heq
      intro hc
      omega
    · rw [if_neg h4] at heq
      by_cases hacc : is_iambic_metron (m :: cur) last = true ∧ (cd = 1 ∨ 4 < cd)
      · rw [if_pos hacc] at heq
        have hb := is_iambic_len (m :: cur) last hacc.1
        have hne7 : (m :: cur).length ≠ 7 := by
          intro h7
          cases last with
          | true =>
            have := hb.2.2 rfl
            omega
          | false =>
            have hd := (iambic7_drops (m :: cur) h7 hacc.1).1
            have hd2 : (m :: cur).drop 1 = cur := rfl
            rw [hd2] at hd
            exact hcur ⟨by omega, hd, hacc.2⟩
        rcases hfill : fill_metron (m :: cur) last with e | filled
        · rw [hfill] at heq
          cases heq
        · rw [hfill] at heq
          dsimp only at heq
          have hfl := fill_metron_ok_length _ _ _ hfill (by omega)
          refine ih _ _ _ _ _ ?_ ?_ heq
          · intro x hx
            rcases List.mem_cons.mp hx with rfl | hx
            · constructor <;> omega
            · exact htri x hx
          · intro hc
            simp at hc
      · rw [if_neg hacc] at heq
        refine ih _ _ _ _ _ htri ?_ heq
        intro hc
        exact hacc ⟨hc.2.1, hc.2.2⟩

/-- Invariant proof for the no-final forward loop, the analogue of
stLoopRev_lengths: every metron in a successfully returned list has 4 to 6
symbols. -/
theorem st2LoopNF_lengths :
    ∀ (rest : List Sym) (tri : List (List Sym)) (cur : List Sym)
      (cd : Nat) (out : List (List Sym)),
      (∀ x ∈ tri, 4 ≤ x.length ∧ x.length ≤ 6) →
      ¬ (4 ≤ cur.length ∧ is_iambic_metron cur false = true ∧ (cd = 1 ∨ 4 < cd)) →
      st2LoopNF rest tri cur cd = .ok out →
      ∀ x ∈ out, 4 ≤ x.length ∧ x.length ≤ 6 := by
  intro rest
  induction rest with
  | nil =>
    intro tri cur cd out htri _ heq
    simp only [st2LoopNF] at heq
    cases heq
    exact htri
  | cons m rest ih =>
    intro tri cur cd out htri hcur heq
    simp only [st2LoopNF] at heq
    have hlc : (cur ++ [m]).length = cur.length + 1 := by simp
    by_cases h4 : (cur ++ [m]).length < 4
    · rw [if_pos h4] at heq
      refine ih _ _ _ _ htri ?_ heq
      intro hc
      omega
    · rw [if_neg h4] at heq
      by_cases hacc : is_iambic_metron (cur ++ [m]) false = true ∧ (cd = 1 ∨ 4 < cd)
      · rw [if_pos hacc] at heq
        have hb := is_iambic_len (cur ++ [m]) false hacc.1
        have hne7 : (cur ++ [m]).length ≠ 7 := by
          intro h7
          have hd := (iambic7_drops (cur ++ [m]) h7 hacc.1).2
          rw [List.dropLast_concat] at hd
          exact hcur ⟨by omega, hd, hacc.2⟩
        rcases hfill : fill_metron (cur ++ [m]) false with e | filled
        · rw [hfill] at heq
          cases heq
        · rw [hfill] at heq
          dsimp only at heq
          have hfl := fill_metron_ok_length _ _ _ hfill (by omega)
          refine ih _ _ _ _ ?_ ?_ heq
          · intro x hx
            rcases List.mem_append.mp hx with hx | hx
            · exact htri x hx
            · rcases List.mem_singleton.mp hx with rfl
              constructor <;> omega
          · intro hc
            simp at hc
      · rw [if_neg hacc] at heq
        refine ih _ _ _ _ htri ?_ heq
        intro hc
        exact hacc ⟨hc.2.1, hc.2.2⟩

/-- The countdown can never reach 1 at a point where the forward loop tests
it: the countdown falls by one per accepted metron while each accepted
metron consumes at least 4 symbols, so with is_last initially false the
forward pass is exactly the no-final loop.  The numeric hypothesis is the
loop invariant relating countdown, metron count, buffer and remaining
symbols. -/
theorem st2Loop_eq_nf :
    ∀ (rest : List Sym) (tri : List (List Sym)) (cur : List Sym) (cd : Nat),
      3 * tri.length + cur.length + rest.length ≤ cd →
      st2Loop rest tri cur false cd = st2LoopNF rest tri cur cd := by
  intro rest
  induction rest with
  | nil =>
    intro tri cur cd _
    simp [st2Loop, st2LoopNF]
  | cons m rest ih =>
    intro tri cur cd h
    simp only [st2Loop, st2LoopNF]
    simp only [List.length_cons] at h
    have hlc : (cur ++ [m]).length = cur.length + 1 := by simp
    by_cases h4 : (cur ++ [m]).length < 4
    · rw [if_pos h4, if_pos h4]
      apply ih
      omega
    · rw [if_neg h4, if_neg h4]
      have hcd : ¬ cd = 1 := by omega
      rw [if_neg hcd]
      by_cases hacc : is_iambic_metron (cur ++ [m]) false = true ∧ (cd = 1 ∨ 4 < cd)
      · rw [if_pos hacc, if_pos hacc]
        rcases hfill : fill_metron (cur ++ [m]) false with e | filled
        · rfl
        · dsimp only
          have := ih (tri ++ [filled]) [] (cd - 1) (by simp; omega)
          exact this
      · rw [if_neg hacc, if_neg hacc]
        apply ih
        omega

/-- C1 counterexample: on the syllable pair πε, τρος the first syllable is
SHORT by nature, its positional length is not LONG (ambiguous mute+liquid
cluster τρ), yet scan_line does not keep SHORT as the claim states: it
yields the positional UNKNOWN instead of the natural SHORT. -/
theorem c1_counterexample :
    natural_length ['π', 'ε'] = Sym.S ∧
    positional_length ['π', 'ε'] (next_of [['π', 'ε'], ['τ', 'ρ', 'ο', 'ς']] 0) ≠ Sym.L ∧
    (scan_line [['π', 'ε'], ['τ', 'ρ', 'ο', 'ς']]).getD 0 Sym.X ≠
      combineSpec (natural_length ['π', 'ε'])
        (positional_length ['π', 'ε'] (next_of [['π', 'ε'], ['τ', 'ρ', 'ο', 'ς']] 0)) := by
  decide

/-- C1 (amended): for every syllable of a line, scan_line combines the two
inferred lengths per the precedence the code implements: natural LONG wins,
then positional LONG, then a natural SHORT is replaced by the positional
result (so an ambiguous mute+liquid position demotes it to UNKNOWN), and
otherwise the natural value (UNKNOWN) stands, so positional SHORT does not
promote a natural UNKNOWN. -/
theorem c1_scan_line_combination (syls : List (List Char)) (i : Nat)
    (h : i < syls.length) :
    (scan_line syls).getD i Sym.X =
      combineCode (natural_length (syls.getD i []))
        (positional_length (syls.getD i []) (next_of syls i)) := by
  have h1 : (scan_line syls).getD i Sym.X = scan_syl syls i := by
    rw [scan_line, List.getD_eq_getElem?_getD, List.getElem?_map,
      List.getElem?_range h]
    rfl
  rw [h1]
  simp only [scan_syl, combineCode]
  rcases hnat : natural_length (syls.getD i []) <;>
    rcases hpos : positional_length (syls.getD i []) (next_of syls i) <;>
    simp

/-- C1 witness: the amended combination rule, instantiated on the concrete
syllable pair νε, τα at index 0. -/
theorem c1_witness :
    0 < ([['ν', 'ε'], ['τ', 'α']] : List (List Char)).length ∧
    (scan_line [['ν', 'ε'], ['τ', 'α']]).getD 0 Sym.X =
      combineCode (natural_length (([['ν', 'ε'], ['τ', 'α']] : List (List Char)).getD 0 []))
        (positional_length (([['ν', 'ε'], ['τ', 'α']] : List (List Char)).getD 0 [])
          (next_of [['ν', 'ε'], ['τ', 'α']] 0)) :=
  ⟨by decide, c1_scan_line_combination [['ν', 'ε'], ['τ', 'α']] 0 (by decide)⟩

/-- C2: positional_length of the line-final syllable νε against the END
sentinel returns SHORT, because alnum_syl lowercases the sentinel to end
before the line-end comparison against the capitalized literal END, so the
remap of SHORT to UNKNOWN (final anceps) never fires. -/
theorem c2_positional_end_short :
    positional_length ['ν', 'ε'] END_SYL = Sym.S ∧
    alnum_syl END_SYL = ['e', 'n', 'd'] := by
  decide

/-- C3: the trimeter scanner can abort with an exception: on a line whose
five syllables νε νε νε νε τα scan to the raw meter SSSSX, the reverse pass
accepts SSSSX as the final metron and fill_metron raises TypeError at the
string item assignment that tries to restore the final anceps. -/
theorem c3_scan_trimeter_raises :
    scan_line [['ν', 'ε'], ['ν', 'ε'], ['ν', 'ε'], ['ν', 'ε'], ['τ', 'α']] =
      [Sym.S, Sym.S, Sym.S, Sym.S, Sym.X] ∧
    scan_trimeter [Sym.S, Sym.S, Sym.S, Sym.S, Sym.X] = .error PyErr.typeError := by
  decide

/-- C4: scan_trimeter succeeds on the 13-symbol raw meter X SLSL SLSL SLSL
while returning only 12 symbols: the countdown guard does not prevent the
leading X from being stranded, so the returned scansion does not account
for every raw-meter symbol. -/
theorem c4_stranded_symbol :
    scan_trimeter
        [Sym.X, Sym.S, Sym.L, Sym.S, Sym.L, Sym.S, Sym.L,
         Sym.S, Sym.L, Sym.S, Sym.L, Sym.S, Sym.L] =
      .ok (some [Sym.S, Sym.L, Sym.S, Sym.L, Sym.S, Sym.L,
                 Sym.S, Sym.L, Sym.S, Sym.L, Sym.S, Sym.L]) ∧
    ([Sym.X, Sym.S, Sym.L, Sym.S, Sym.L, Sym.S, Sym.L,
      Sym.S, Sym.L, Sym.S, Sym.L, Sym.S, Sym.L] : List Sym).length = 13 ∧
    ([Sym.S, Sym.L, Sym.S, Sym.L, Sym.S, Sym.L,
      Sym.S, Sym.L, Sym.S, Sym.L, Sym.S, Sym.L] : List Sym).length = 12 := by
  decide

/-- C5 counterexample: scan_trimeter succeeds on the raw meter
SLSL SLSL SSSSL and returns 13 symbols, not 12: a 5-symbol resolved metron
keeps its 5 symbols in the output. -/
theorem c5_counterexample :
    scan_trimeter
        [Sym.S, Sym.L, Sym.S, Sym.L, Sym.S, Sym.L, Sym.S, Sym.L,
         Sym.S, Sym.S, Sym.S, Sym.S, Sym.L] =
      .ok (some [Sym.S, Sym.L, Sym.S, Sym.L, Sym.S, Sym.L, Sym.S, Sym.L,
                 Sym.S, Sym.S, Sym.S, Sym.S, Sym.L]) ∧
    ([Sym.S, Sym.L, Sym.S, Sym.L, Sym.S, Sym.L, Sym.S, Sym.L,
      Sym.S, Sym.S, Sym.S, Sym.S, Sym.L] : List Sym).length = 13 := by
  decide

/-- C5 (amended): whenever scan_trimeter succeeds, the returned scansion is
the concatenation of three filled metra of 4 to 6 symbols each, so its
length is between 12 and 18; it is 12 exactly when no metron needed
resolution. -/
theorem c5_success_length_bounds (meter : List Sym) (out : List Sym)
    (h : scan_trimeter meter = .ok (some out)) :
    12 ≤ out.length ∧ out.length ≤ 18 := by
  rw [scan_trimeter] at h
  rcases h1 : stLoopRev meter.reverse [] [] true meter.length with e | tri
  · rw [h1] at h
    cases h
  · rw [h1] at h
    dsimp only at h
    by_cases h3 : tri.length = 3
    · rw [if_pos h3] at h
      simp only [Except.ok.injEq, Option.some.injEq] at h
      subst h
      have hlens := stLoopRev_lengths _ _ _ _ _ _
        (by intro x hx; cases hx) (by intro hc; simp at hc) h1
      obtain ⟨a, b, c, rfl⟩ := List.length_eq_three.mp h3
      have ha := hlens a (by simp)
      have hb := hlens b (by simp)
      have hc2 := hlens c (by simp)
      simp only [List.flatten, List.append_nil, List.length_append]
      omega
    · rw [if_neg h3] at h
      rcases h2 : st2Loop meter [] [] false meter.length with e | tri2
      · rw [h2] at h
        cases h
      · rw [h2] at h
        dsimp only at h
        by_cases h32 : tri2.length = 3
        · rw [if_pos h32] at h
          simp only [Except.ok.injEq, Option.some.injEq] at h
          subst h
          rw [st2Loop_eq_nf meter [] [] meter.length (by simp)] at h2
          have hlens := st2LoopNF_lengths _ _ _ _ _
            (by intro x hx; cases hx) (by intro hc; simp at hc) h2
          obtain ⟨a, b, c, rfl⟩ := List.length_eq_three.mp h32
          have ha := hlens a (by simp)
          have hb := hlens b (by simp)
          have hc2 := hlens c (by simp)
          simp only [List.flatten, List.append_nil, List.length_append]
          omega
        · rw [if_neg h32] at h
          cases h

/-- C5 witness: the length bounds instantiated on the raw meter
SLSL SLSL SLSL, on which scan_trimeter succeeds with a 12-symbol result. -/
theorem c5_witness :
    scan_trimeter
        [Sym.S, Sym.L, Sym.S, Sym.L, Sym.S, Sym.L,
         Sym.S, Sym.L, Sym.S, Sym.L, Sym.S, Sym.L] =
      .ok (some [Sym.S, Sym.L, Sym.S, Sym.L, Sym.S, Sym.L,
                 Sym.S, Sym.L, Sym.S, Sym.L, Sym.S, Sym.L]) ∧
    (12 ≤ ([Sym.S, Sym.L, Sym.S, Sym.L, Sym.S, Sym.L,
            Sym.S, Sym.L, Sym.S, Sym.L, Sym.S, Sym.L] : List Sym).length ∧
     ([Sym.S, Sym.L, Sym.S, Sym.L, Sym.S, Sym.L,
       Sym.S, Sym.L, Sym.S, Sym.L, Sym.S, Sym.L] : List Sym).length ≤ 18) :=
  ⟨by decide,
   c5_success_length_bounds
     [Sym.S, Sym.L, Sym.S, Sym.L, Sym.S, Sym.L,
      Sym.S, Sym.L, Sym.S, Sym.L, Sym.S, Sym.L]
     [Sym.S, Sym.L, Sym.S, Sym.L, Sym.S, Sym.L,
      Sym.S, Sym.L, Sym.S, Sym.L, Sym.S, Sym.L] (by decide)⟩

/-- C6 counterexample: LLSSS is a fully specified 5-symbol metron over
{L, S} (even accepted by the non-final grammar), yet fill_metron does not
return it unchanged: no ranked candidate matches and the call fails with
IndexError. -/
theorem c6_counterexample :
    is_iambic_metron [Sym.L, Sym.L, Sym.S, Sym.S, Sym.S] false = true ∧
    ([Sym.L, Sym.L, Sym.S, Sym.S, Sym.S] : List Sym).length = 5 ∧
    Sym.X ∉ [Sym.L, Sym.L, Sym.S, Sym.S, Sym.S] ∧
    fill_metron [Sym.L, Sym.L, Sym.S, Sym.S, Sym.S] false = .error PyErr.indexError := by
  decide

/-- C6 (amended): fill_metron returns a 5-symbol input unchanged exactly
when the input is one of the four ranked candidates; on those inputs it
matches itself and the call does not fail.  Any other fully specified
5-symbol string leaves the candidate list empty and the call raises
IndexError, as the counterexample shows. -/
theorem c6_fill_candidate_identity (m : List Sym) (f : Bool)
    (h : m ∈ possible_metra) :
    fill_metron m f = .ok m := by
  fin_cases h <;> cases f <;> decide

/-- C6 witness: the candidate identity instantiated on SSSSL with the final
flag set. -/
theorem c6_witness :
    [Sym.S, Sym.S, Sym.S, Sym.S, Sym.L] ∈ possible_metra ∧
    fill_metron [Sym.S, Sym.S, Sym.S, Sym.S, Sym.L] true =
      .ok [Sym.S, Sym.S, Sym.S, Sym.S, Sym.L] :=
  ⟨by decide, c6_fill_candidate_identity [Sym.S, Sym.S, Sym.S, Sym.S, Sym.L] true (by decide)⟩

/-- C7 counterexample: on the final 5-symbol metron SSSSX, whose first (and
only) matching candidate SSSSL does not end in SSS, the restoration step is
not an unobservable no-op: the call raises TypeError instead of returning
SSSSL. -/
theorem c7_counterexample :
    possible_metra.filter (patMatch [Sym.S, Sym.S, Sym.S, Sym.S, Sym.X]) =
      [[Sym.S, Sym.S, Sym.S, Sym.S, Sym.L]] ∧
    fill_metron [Sym.S, Sym.S, Sym.S, Sym.S, Sym.X] true ≠
      .ok [Sym.S, Sym.S, Sym.S, Sym.S, Sym.L] ∧
    fill_metron [Sym.S, Sym.S, Sym.S, Sym.S, Sym.X] true = .error PyErr.typeError := by
  decide

/-- C7 (amended): for every 5-symbol metron with final set whose last
observed symbol is X and whose first matching candidate does not end in
SSS, the restoration step is observable as a failure: fill_metron raises
TypeError (the Python string item assignment) instead of completing. -/
theorem c7_restore_raises (m : List Sym) (first : List Sym)
    (rest : List (List Sym)) (h5 : m.length = 5)
    (hx : m.getLast? = some Sym.X)
    (hm : possible_metra.filter (patMatch m) = first :: rest)
    (hends : endsWith3S first = false) :
    fill_metron m true = .error PyErr.typeError := by
  rw [fill_metron, if_neg (by omega), if_neg (by omega), if_pos h5, hm]
  dsimp only
  rw [if_pos ⟨rfl, hx, hends⟩]

/-- C7 witness: the amended failure behaviour instantiated on the metron
XSSSX, whose first matching candidate is SSSSL. -/
theorem c7_witness :
    ([Sym.X, Sym.S, Sym.S, Sym.S, Sym.X] : List Sym).length = 5 ∧
    possible_metra.filter (patMatch [Sym.X, Sym.S, Sym.S, Sym.S, Sym.X]) =
      [[Sym.S, Sym.S, Sym.S, Sym.S, Sym.L], [Sym.L, Sym.S, Sym.S, Sym.S, Sym.L]] ∧
    fill_metron [Sym.X, Sym.S, Sym.S, Sym.S, Sym.X] true = .error PyErr.typeError :=
  ⟨by decide, by decide,
   c7_restore_raises [Sym.X, Sym.S, Sym.S, Sym.S, Sym.X]
     [Sym.S, Sym.S, Sym.S, Sym.S, Sym.L] [[Sym.L, Sym.S, Sym.S, Sym.S, Sym.L]]
     (by decide) (by decide) (by decide) (by decide)⟩

/-- C8 counterexample: the seven-symbol candidate SSSSSSS is accepted by
the non-final metron matcher, so accepted candidates are not bounded by 6
symbols. -/
theorem c8_counterexample :
    is_iambic_metron [Sym.S, Sym.S, Sym.S, Sym.S, Sym.S, Sym.S, Sym.S] false = true ∧
    ([Sym.S, Sym.S, Sym.S, Sym.S, Sym.S, Sym.S, Sym.S] : List Sym).length = 7 := by
  decide

/-- C8 (amended): every candidate accepted by the metron matcher has length
at least 4 and at most 7, and at most 6 under the final grammar; the
non-final grammar does accept length 7 (counterexample SSSSSSS). -/
theorem c8_metron_length_bounds (s : List Sym) (f : Bool)
    (h : is_iambic_metron s f = true) :
    4 ≤ s.length ∧ s.length ≤ 7 ∧ (f = true → s.length ≤ 6) :=
  is_iambic_len s f h

/-- C8 witness: the length bounds instantiated on the final metron SLSL. -/
theorem c8_witness :
    is_iambic_metron [Sym.S, Sym.L, Sym.S, Sym.L] true = true ∧
    (4 ≤ ([Sym.S, Sym.L, Sym.S, Sym.L] : List Sym).length ∧
     ([Sym.S, Sym.L, Sym.S, Sym.L] : List Sym).length ≤ 7 ∧
     (true = true → ([Sym.S, Sym.L, Sym.S, Sym.L] : List Sym).length ≤ 6)) :=
  ⟨by decide, c8_metron_length_bounds [Sym.S, Sym.L, Sym.S, Sym.L] true (by decide)⟩

/-- C9: every syllable whose diacritic-stripped form contains η or ω has
natural length LONG: the long-vowel rule is the first one evaluated, so no
later rule (including the combining-breve SHORT rule) is consulted. -/
theorem c9_eta_omega_long (syl : List Char)
    (h : 'η' ∈ strip_str syl ∨ 'ω' ∈ strip_str syl) :
    natural_length syl = Sym.L := by
  have hany : (strip_str syl).any (fun c => LONG_VOWELS.contains c) = true := by
    rcases h with h | h
    · exact List.any_eq_true.mpr ⟨'η', h, by decide⟩
    · exact List.any_eq_true.mpr ⟨'ω', h, by decide⟩
  simp only [natural_length]
  rw [if_pos hany]

/-- C9 witness: the long-vowel rule instantiated on the syllable η followed
by a combining breve: the stripped form contains η, the decomposed form
contains the SHORT mark, and the result is still LONG. -/
theorem c9_witness :
    ('η' ∈ strip_str ['η', Char.ofNat 0x306] ∨
      'ω' ∈ strip_str ['η', Char.ofNat 0x306]) ∧
    (nfd_str ['η', Char.ofNat 0x306]).contains SHORT_MARK = true ∧
    natural_length ['η', Char.ofNat 0x306] = Sym.L :=
  ⟨Or.inl (by decide), by decide,
   c9_eta_omega_long ['η', Char.ofNat 0x306] (Or.inl (by decide))⟩

/-- C10: on every raw meter of length at least 2 the fallback front-to-back
pass never applies the final grammar or the final fill: the countdown can
never equal 1 at a test point, so scan_trimeter_2 coincides with the
variant that hardwires the final flag to false for every metron. -/
theorem c10_forward_pass_no_final (meter : List Sym) (h : 2 ≤ meter.length) :
    scan_trimeter_2 meter = scan_trimeter_2_nf meter := by
  have h2 := st2Loop_eq_nf meter [] [] meter.length (by simp)
  simpa [scan_trimeter_2, scan_trimeter_2_nf] using h2

/-- C10 witness: the two passes agree on the concrete raw meter SLSL. -/
theorem c10_witness :
    2 ≤ ([Sym.S, Sym.L, Sym.S, Sym.L] : List Sym).length ∧
    scan_trimeter_2 [Sym.S, Sym.L, Sym.S, Sym.L] =
      scan_trimeter_2_nf [Sym.S, Sym.L, Sym.S, Sym.L] :=
  ⟨by decide, c10_forward_pass_no_final [Sym.S, Sym.L, Sym.S, Sym.L] (by decide)⟩

end GS
